import Mathlib

/-!
# Verification of the CTAS+SWAP tokenization engine

Shallow embedding of the Python stored-procedure body
`ctas_swap_tokenize_handler` generated by
`skyflow_snowflake/snowflake_ops/notebooks.py`
(`StoredProcedureManager.create_tokenization_procedure`), together with
proofs and refutations of the specification's claims about it.

Modelling conventions:
* A table row is a function from column names to nullable string values
  (`Row := String → Option String`); SQL `NULL` is `none`.
* The source table is a list of rows given in the deterministic order used by
  the snapshot SQL (`ORDER BY customer_id, email, total_purchases,
  created_at`), so `ROW_NUMBER()` is position+1 in the filtered list.
* The external vault is a function from the list of plaintext values of one
  batch request to an outcome: an HTTP-level error (`requests` raises,
  covering timeouts and `raise_for_status` on 4xx/5xx), a body without a
  `records` key, or a parsed list of response records.
* JSON response records are modelled by `VaultRecord`: the optional `tokens`
  and `fields` sub-objects and the remaining top-level string-valued keys
  (which is where a `token` key or a bare column-named key would live).
* The transient staging table `TOK_ALL` is an association list from `rn` to
  an association list from column name to token, and the `MERGE` statement
  is a fold of single-row upserts (source rows of one `MERGE` have distinct
  `rn`, so the fold agrees with the set-based SQL semantics).
* `SWAP WITH` exchanges table contents; only a completed run mutates the
  source table.
-/

namespace CtasSwap

/-- A table row: column name ↦ nullable string value. -/
abbrev Row := String → Option String

/-- The hard-coded PII column list of the handler (`pii_columns`). -/
def piiColumns : List String :=
  ["first_name", "last_name", "email", "phone_number", "address", "date_of_birth"]

/-- The hard-coded non-PII columns selected by the rebuild CTAS
(`other_columns`, without the `s.` qualifier). -/
def otherColumns : List String :=
  ["signup_date", "last_login", "total_purchases", "total_spent",
   "loyalty_status", "preferred_language", "consent_marketing",
   "consent_data_sharing", "created_at", "updated_at"]

/-- All columns of the replacement table, in CTAS order. -/
def allColumns : List String := "customer_id" :: piiColumns ++ otherColumns

/-- SQL `TRIM` with default characters: strip leading and trailing spaces. -/
def sqlTrim (s : String) : String :=
  ⟨(((s.toList.dropWhile (· = ' ')).reverse.dropWhile (· = ' ')).reverse)⟩

/-- The snapshot `WHERE` filter: at least one PII column is non-null. -/
def hasAnyPii (r : Row) : Bool :=
  piiColumns.any (fun c => (r c).isSome)

/-- Step 1: the snapshot `SNAP_CUSTOMER`: filter the (ordered) source to rows
with at least one non-null PII column and tag each with
`rn = ROW_NUMBER()` (1-based position in the filtered order). -/
def snapshotOf (src : List Row) : List (Nat × Row) :=
  ((src.filter hasAnyPii).enum).map (fun p => (p.1 + 1, p.2))

/-- The per-column value query: rows of the snapshot whose value for `col` is
non-null and not blank (`TRIM(col) != ''`), in `rn` order, as
`(rn, pii_value)` pairs. -/
def colValues (snap : List (Nat × Row)) (col : String) : List (Nat × String) :=
  snap.filterMap (fun p =>
    match p.2 col with
    | some v => if sqlTrim v = "" then none else some (p.1, v)
    | none => none)

/-- Worker for `chunks`: `acc` holds the current chunk reversed, `k` the
number of elements still admitted into it. -/
def chunksGo {α : Type} (n : Nat) : List α → List α → Nat → List (List α)
  | [], acc, _ => [acc.reverse]
  | x :: xs, acc, 0 => acc.reverse :: chunksGo n xs [x] (n - 1)
  | x :: xs, acc, k + 1 => chunksGo n xs (x :: acc) k

/-- `range(0, len(l), n)` batching: split a list into consecutive chunks of
size `n` (the last may be shorter).  `n = 0` is degenerate (the Python
`range` would raise); it is never used with `n = 0` below. -/
def chunks {α : Type} (n : Nat) (l : List α) : List (List α) :=
  match l with
  | [] => []
  | x :: xs => if n = 0 then [x :: xs] else chunksGo n xs [x] (n - 1)

/-- String-keyed association-list lookup (a JSON object field or a staging
column): value of the first entry with the given key. -/
def lookupA : List (String × String) → String → Option String
  | [], _ => none
  | p :: m, k => if p.1 == k then some p.2 else lookupA m k

/-- One record of a parsed vault response: the `tokens` and `fields`
sub-objects when present, and the remaining top-level string-valued keys. -/
structure VaultRecord where
  tokens : Option (List (String × String))
  fields : Option (List (String × String))
  top : List (String × String)
deriving Repr, DecidableEq

/-- Outcome of one `requests.post` to the vault. -/
inductive VaultOutcome where
  /-- `requests.post` or `raise_for_status()` raised (timeout, 4xx, 5xx). -/
  | httpError (status : Nat)
  /-- Body parsed but falsy or without a `records` key
  (`if not result or 'records' not in result`). -/
  | badBody (raw : String)
  /-- Parsed `records` list. -/
  | ok (records : List VaultRecord)

/-- The token-extraction conditional chain of the handler, checked in order:
`tokens[table_column]`, then `fields[table_column]`, then top-level `token`,
then a bare `table_column` key. -/
def extractToken (tc : String) (rec : VaultRecord) : Option String :=
  match rec.tokens.bind (fun m => lookupA m tc) with
  | some t => some t
  | none =>
    match rec.fields.bind (fun m => lookupA m tc) with
    | some t => some t
    | none =>
      match lookupA rec.top "token" with
      | some t => some t
      | none => lookupA rec.top tc

/-- The response-pairing loop: walk `records` and `batch_data` positionally
(`rn = batch_data[i]['RN']`, stopping at the shorter of the two), extract a
token from each record, and keep `(rn, token)` only when the token is truthy
(`if token:` — present and non-empty). -/
def batchTokens (tc : String) (batch : List (Nat × String))
    (recs : List VaultRecord) : List (Nat × String) :=
  (recs.zip batch).filterMap (fun p =>
    match extractToken tc p.1 with
    | some t => if t = "" then none else some (p.2.1, t)
    | none => none)

/-- A staging-table row: `rn` paired with the populated token columns. -/
abbrev Staging := List (Nat × List (String × String))

/-- Set key `k` to `v` in a row's column list: overwrite the entry holding
`k` if present (staging rows keep one entry per column), else append. -/
def rowSet : List (String × String) → String → String → List (String × String)
  | [], k, v => [(k, v)]
  | p :: m, k, v => if p.1 == k then (k, v) :: m else p :: rowSet m k v

/-- One source row of the staging `MERGE`: update `col` of the matched target
row (`WHEN MATCHED THEN UPDATE`), or insert a fresh row holding only `col`
(`WHEN NOT MATCHED THEN INSERT`); staging holds at most one row per `rn`. -/
def upsert : Staging → String → Nat → String → Staging
  | [], col, rn, tok => [(rn, [(col, tok)])]
  | row :: stg, col, rn, tok =>
    if row.1 == rn then (rn, rowSet row.2 col tok) :: stg
    else row :: upsert stg col rn tok

/-- The whole `MERGE INTO TOK_ALL` for one column's collected tokens (the
source rows of one `MERGE` carry distinct `rn`, so the fold agrees with the
set-based SQL semantics). -/
def mergeColumn (stg : Staging) (col : String) (toks : List (Nat × String)) :
    Staging :=
  toks.foldl (fun s p => upsert s col p.1 p.2) stg

/-- Read the token stored for `(rn, col)` (null when the row is absent or the
column was never populated). -/
def stgLookup : Staging → Nat → String → Option String
  | [], _, _ => none
  | row :: stg, rn, col =>
    if row.1 == rn then lookupA row.2 col else stgLookup stg rn col

/-- Mutable state of the tokenization loop: staging-table contents, the
`total_api_calls` and `total_tokens_processed` counters, and the trace of
HTTP request payloads issued so far. -/
structure TokState where
  staging : Staging
  apiCalls : Nat
  tokensProcessed : Nat
  trace : List (List String)
deriving Repr, DecidableEq

/-- How one column's pass can abort the run. -/
inductive TokFail where
  /-- `requests` raised; caught by the handler's outer `except`. -/
  | httpError (status : Nat)
  /-- `return f"Skyflow API error for {col}: ..."`. -/
  | apiError (col : String) (raw : String)
deriving Repr, DecidableEq

/-- The batch loop of one column: send each batch to the vault, recording the
payload in the trace before the outcome is known; on success accumulate the
positionally paired tokens and bump `total_api_calls`, on failure abort with
the state as it stands. -/
def processBatches (vault : List String → VaultOutcome) (tc col : String)
    (st : TokState) (acc : List (Nat × String)) :
    List (List (Nat × String)) → Except (TokFail × TokState) (TokState × List (Nat × String))
  | [] => .ok (st, acc)
  | b :: rest =>
    let payload := b.map Prod.snd
    let st' := { st with trace := st.trace ++ [payload] }
    match vault payload with
    | .httpError s => .error (.httpError s, st')
    | .badBody raw => .error (.apiError col raw, st')
    | .ok recs =>
      processBatches vault tc col { st' with apiCalls := st'.apiCalls + 1 }
        (acc ++ batchTokens tc b recs) rest

/-- One column's pass: read the non-null, non-blank values in `rn` order,
batch them, tokenize each batch, and — only if the whole column succeeded and
produced at least one token — `MERGE` the collected tokens into staging and
bump `total_tokens_processed`.  A column with no values is skipped with no
API call. -/
def processColumn (vault : List String → VaultOutcome) (tc : String)
    (bs : Nat) (snap : List (Nat × Row)) (st : TokState) (col : String) :
    Except (TokFail × TokState) TokState :=
  let vals := colValues snap col
  if vals.isEmpty then .ok st
  else
    match processBatches vault tc col st [] (chunks bs vals) with
    | .error e => .error e
    | .ok (st', toks) =>
      if toks.isEmpty then .ok st'
      else .ok { st' with
        staging := mergeColumn st'.staging col toks,
        tokensProcessed := st'.tokensProcessed + toks.length }

/-- The `for col in pii_columns` loop; the first failing column ends the run. -/
def processColumns (vault : List String → VaultOutcome) (tc : String)
    (bs : Nat) (snap : List (Nat × Row)) (st : TokState) :
    List String → Except (TokFail × TokState) TokState
  | [] => .ok st
  | c :: cs =>
    match processColumn vault tc bs snap st c with
    | .error e => .error e
    | .ok st' => processColumns vault tc bs snap st' cs

/-- One row of the rebuild CTAS: keep only the replacement table's columns;
each PII column is `COALESCE(stg.{col}_token, s.{col})` for this row's `rn`,
every other kept column is copied from the snapshot row. -/
def rebuildRow (stg : Staging) (rn : Nat) (r : Row) : Row :=
  fun c =>
    if allColumns.contains c then
      if piiColumns.contains c then
        match stgLookup stg rn c with
        | some t => some t
        | none => r c
      else r c
    else none

/-- Step 4: the replacement table `{prefix}_customer_data_NEW`, built from the
snapshot left-joined with staging on `rn`. -/
def rebuildTable (stg : Staging) (snap : List (Nat × Row)) : List Row :=
  snap.map (fun p => rebuildRow stg p.1 p.2)

/-- The string the handler returns, per terminal branch. -/
inductive RunOutcome where
  /-- `return "No rows to tokenize"`. -/
  | noRowsToTokenize
  /-- The outer `except Exception` path (here: a vault HTTP error). -/
  | handlerException (status : Nat)
  /-- `return f"Skyflow API error for {col}: ..."`. -/
  | apiError (col : String) (raw : String)
  /-- `return f"Validation failed: row count mismatch (...)"`. -/
  | validationFailed (oldRows newRows : Nat)
  /-- `return f"CTAS+SWAP tokenization complete: ..."`. -/
  | complete (tokensProcessed apiCalls newRows : Nat)
deriving Repr, DecidableEq

/-- The handler's returned string for each outcome (HTTP exception details
abbreviated to the status). -/
def resultMessage : RunOutcome → String
  | .noRowsToTokenize => "No rows to tokenize"
  | .handlerException s =>
    "CTAS+SWAP tokenization failed: HTTP error " ++ toString s
  | .apiError col raw => "Skyflow API error for " ++ col ++ ": " ++ raw.take 200
  | .validationFailed o n =>
    "Validation failed: row count mismatch (" ++ toString o ++ " -> " ++
      toString n ++ ")"
  | .complete t a n =>
    "CTAS+SWAP tokenization complete: " ++ toString t ++ " tokens via " ++
      toString a ++ " API calls (" ++ toString n ++ " total rows)"

/-- Observable result of one run of the handler. -/
structure RunResult where
  outcome : RunOutcome
  /-- Source-table contents after the run ends. -/
  sourceAfter : List Row
  /-- Staging-table contents when the run ends (`none`: never created). -/
  staging : Option Staging
  /-- Replacement-table contents as built (`none`: never created). -/
  replacement : Option (List Row)
  /-- Payloads of every HTTP request issued, in order. -/
  trace : List (List String)
  /-- Whether the `SWAP WITH` statement executed. -/
  swapPerformed : Bool

/-- The whole handler run.  `src` is the source table at snapshot time (in
snapshot order); `extra` models rows inserted by a concurrent external writer
between snapshot and validation, so the source table holds `src ++ extra`
from then on; `vault` is the external tokenization service; `tc` is the
configured `table_column`; `bs` the batch size. -/
def run (tc : String) (bs : Nat) (src extra : List Row)
    (vault : List String → VaultOutcome) : RunResult :=
  let snap := snapshotOf src
  if snap.length = 0 then
    { outcome := .noRowsToTokenize, sourceAfter := src ++ extra,
      staging := none, replacement := none, trace := [],
      swapPerformed := false }
  else
    match processColumns vault tc bs snap ⟨[], 0, 0, []⟩ piiColumns with
    | .error (.httpError s, st) =>
      { outcome := .handlerException s, sourceAfter := src ++ extra,
        staging := some st.staging, replacement := none, trace := st.trace,
        swapPerformed := false }
    | .error (.apiError col raw, st) =>
      { outcome := .apiError col raw, sourceAfter := src ++ extra,
        staging := some st.staging, replacement := none, trace := st.trace,
        swapPerformed := false }
    | .ok st =>
      let repl := rebuildTable st.staging snap
      let oldRows := (src ++ extra).length
      let newRows := repl.length
      if oldRows = newRows then
        { outcome := .complete st.tokensProcessed st.apiCalls newRows,
          sourceAfter := repl, staging := some st.staging,
          replacement := some repl, trace := st.trace, swapPerformed := true }
      else
        { outcome := .validationFailed oldRows newRows,
          sourceAfter := src ++ extra, staging := some st.staging,
          replacement := some repl, trace := st.trace,
          swapPerformed := false }

/-! ## Concrete fixtures

Small concrete tables and vault behaviours used to evaluate the model. -/

/-- The configured Skyflow `table_column` used in concrete scenarios. -/
def tcMain : String := "pii"

/-- Source row 1: non-null `email`, all other PII columns null. -/
def rowEmailA : Row := fun c =>
  if c = "customer_id" then some "1"
  else if c = "email" then some "a@x.com"
  else if c = "total_purchases" then some "5"
  else none

/-- Source row 2: non-null `email`, all other PII columns null. -/
def rowEmailB : Row := fun c =>
  if c = "customer_id" then some "2"
  else if c = "email" then some "b@x.com"
  else if c = "total_purchases" then some "7"
  else none

/-- Source row with every sensitive column null (only non-PII data). -/
def rowNoPii : Row := fun c =>
  if c = "customer_id" then some "3"
  else if c = "total_purchases" then some "9"
  else none

/-- Source row with a non-null `first_name` but a null `email`. -/
def rowFirstOnly : Row := fun c =>
  if c = "customer_id" then some "4"
  else if c = "first_name" then some "Ann"
  else none

/-- Source row whose `email` the selective vault rejects. -/
def rowFailEmail : Row := fun c =>
  if c = "customer_id" then some "5"
  else if c = "first_name" then some "Bob"
  else if c = "email" then some "bad@x"
  else none

/-- A response record carrying the token under `tokens[table_column]`. -/
def mkTokRec (v : String) : VaultRecord :=
  { tokens := some [(tcMain, "tok_" ++ v)], fields := none, top := [] }

/-- A response record matching none of the four accepted shapes. -/
def weirdRec : VaultRecord :=
  { tokens := none, fields := none, top := [("something_else", "x")] }

/-- A vault answering every record with a `tokens`-shaped token. -/
def vaultTokAll : List String → VaultOutcome :=
  fun p => .ok (p.map mkTokRec)

/-- A vault that always fails with HTTP 500. -/
def vault500 : List String → VaultOutcome :=
  fun _ => .httpError 500

/-- A vault whose records never match an accepted token shape. -/
def vaultWeird : List String → VaultOutcome :=
  fun p => .ok (p.map (fun _ => weirdRec))

/-- A vault that fails with HTTP 503 exactly when the payload contains the
value `"bad@x"`, and tokenizes normally otherwise. -/
def vaultSel : List String → VaultOutcome :=
  fun p => if p.contains "bad@x" then .httpError 503 else .ok (p.map mkTokRec)

/-- A response record exhibiting all four accepted token shapes at once. -/
def recAllShapes : VaultRecord :=
  { tokens := some [(tcMain, "t_tokens")], fields := some [(tcMain, "t_fields")],
    top := [("token", "t_top"), (tcMain, "t_bare")] }

/-- A response record with the `fields`, `token` and bare shapes. -/
def recNoTok : VaultRecord :=
  { tokens := none, fields := some [(tcMain, "t_fields")],
    top := [("token", "t_top"), (tcMain, "t_bare")] }

/-- A response record with the `token` and bare shapes. -/
def recTopTok : VaultRecord :=
  { tokens := none, fields := none,
    top := [("token", "t_top"), (tcMain, "t_bare")] }

/-- A response record with only the bare column-named shape. -/
def recBare : VaultRecord :=
  { tokens := none, fields := none, top := [(tcMain, "t_bare")] }

/-- Every payload of a request trace got a parsed `records` response. -/
def allOk (vault : List String → VaultOutcome) (tr : List (List String)) :
    Prop :=
  ∀ p ∈ tr, ∃ recs, vault p = .ok recs

/-- How the vault answered the payload that produced a given failure. -/
def failMatches (vault : List String → VaultOutcome) (f : TokFail)
    (p : List String) : Prop :=
  match f with
  | .httpError s => vault p = .httpError s
  | .apiError _ raw => vault p = .badBody raw

/-- No value of any recorded HTTP payload is blank. -/
def nbTrace (tr : List (List String)) : Prop :=
  ∀ p ∈ tr, ∀ v ∈ p, sqlTrim v ≠ ""

/-- SQL-style test: the value is `NULL` or trims to the empty string. -/
def isNullOrBlank : Option String → Bool
  | none => true
  | some v => sqlTrim v == ""

/-- Fixture for the null-retention witness: one row with only `email`, one
row with only `first_name` (null `email`). -/
def srcNullMix : List Row := [rowEmailA, rowFirstOnly]

/-- The staging table produced by tokenizing `srcNullMix` with
`vaultTokAll`. -/
def stgNullMix : Staging :=
  [(2, [("first_name", "tok_Ann")]), (1, [("email", "tok_a@x.com")])]

end CtasSwap

namespace CtasSwap

/-! ## Claims -/

/-- **C1** (code bug).  The claim: the Table Rebuilder preserves the full
original row population of the Source Table, including rows never present in
the Snapshot (rows whose sensitive columns are all null); for a 3-row source
with 2 rows having a non-null sensitive value the Replacement Table has 3
rows and validation passes.  The code violates this: the rebuild CTAS selects
`FROM SNAP_CUSTOMER` — the snapshot filtered to rows with at least one
non-null PII column — so a source row whose six PII columns are all null
never reaches the replacement table.  On the 3-row source below (2 rows with
`email`, 1 row with all PII null) the replacement table has 2 rows, the
code's own validation fails with `3 -> 2`, and no swap happens, contradicting
both the claim and the code's success path. -/
theorem C1_all_null_pii_row_dropped :
    (run tcMain 25 [rowEmailA, rowEmailB, rowNoPii] [] vaultTokAll).outcome
      = .validationFailed 3 2
    ∧ ((run tcMain 25 [rowEmailA, rowEmailB, rowNoPii] [] vaultTokAll).replacement.map
        List.length) = some 2
    ∧ (run tcMain 25 [rowEmailA, rowEmailB, rowNoPii] [] vaultTokAll).swapPerformed
      = false
    ∧ (snapshotOf [rowEmailA, rowEmailB, rowNoPii]).length = 2 := by
  exact ⟨by decide, by decide, by decide, by decide⟩

/-- **C10** (confirmed).  If the snapshot has zero rows (no source row has
any non-null sensitive value), the handler returns `"No rows to tokenize"`
right after snapshotting: the staging and replacement tables are never
created, no vault call is made, no swap happens, and the source table is left
unchanged. -/
theorem C10_empty_snapshot_early_return (tc : String) (bs : Nat)
    (src extra : List Row) (vault : List String → VaultOutcome)
    (h : snapshotOf src = []) :
    (run tc bs src extra vault).outcome = .noRowsToTokenize
    ∧ resultMessage (run tc bs src extra vault).outcome = "No rows to tokenize"
    ∧ (run tc bs src extra vault).staging = none
    ∧ (run tc bs src extra vault).replacement = none
    ∧ (run tc bs src extra vault).trace = []
    ∧ (run tc bs src extra vault).swapPerformed = false
    ∧ (run tc bs src extra vault).sourceAfter = src ++ extra := by
  simp only [run, h, List.length_nil]
  exact ⟨rfl, rfl, rfl, rfl, rfl, rfl, rfl⟩

/-- Witness for `C10_empty_snapshot_early_return`: a one-row source whose
PII columns are all null. -/
theorem C10_empty_snapshot_early_return_witness :
    (run tcMain 25 [rowNoPii] [rowEmailA] vaultTokAll).outcome
      = .noRowsToTokenize
    ∧ (run tcMain 25 [rowNoPii] [rowEmailA] vaultTokAll).trace = []
    ∧ (run tcMain 25 [rowNoPii] [rowEmailA] vaultTokAll).sourceAfter
      = [rowNoPii] ++ [rowEmailA] := by
  have h := C10_empty_snapshot_early_return tcMain 25 [rowNoPii] [rowEmailA]
    vaultTokAll rfl
  exact ⟨h.1, h.2.2.2.2.1, h.2.2.2.2.2.2⟩

/-- **C2** (confirmed).  The swap executes exactly when the source-table row
count equals the replacement-table row count at validation time; on any
mismatch the run returns the validation failure without swapping and the
source table is untouched (more generally, whenever no swap happened the
source table still holds exactly what the surrounding system put there). -/
theorem C2_swap_iff_rowcounts_equal (tc : String) (bs : Nat)
    (src extra : List Row) (vault : List String → VaultOutcome) :
    ((run tc bs src extra vault).swapPerformed = true ↔
      (run tc bs src extra vault).replacement.map List.length
        = some (src ++ extra).length)
    ∧ (∀ n, (run tc bs src extra vault).replacement.map List.length = some n →
        (src ++ extra).length ≠ n →
        (run tc bs src extra vault).outcome
          = .validationFailed (src ++ extra).length n
        ∧ (run tc bs src extra vault).sourceAfter = src ++ extra)
    ∧ ((run tc bs src extra vault).swapPerformed = false →
        (run tc bs src extra vault).sourceAfter = src ++ extra) := by
  simp only [run]
  split
  · simp
  · split
    · simp
    · simp
    · rename_i st _
      split
      · rename_i heq
        simp_all
      · rename_i hne
        simp_all
        omega

/-- Witness for `C2_swap_iff_rowcounts_equal`: a concurrent insert between
snapshot and validation (source 2 rows + 1 external row vs. a 2-row
replacement) aborts with `3 -> 2` and leaves the source table as the writers
left it. -/
theorem C2_swap_iff_rowcounts_equal_witness :
    (run tcMain 25 [rowEmailA, rowEmailB] [rowNoPii] vaultTokAll).outcome
      = .validationFailed 3 2
    ∧ (run tcMain 25 [rowEmailA, rowEmailB] [rowNoPii] vaultTokAll).sourceAfter
      = [rowEmailA, rowEmailB] ++ [rowNoPii]
    ∧ (run tcMain 25 [rowEmailA, rowEmailB] [rowNoPii] vaultTokAll).swapPerformed
      = false := by
  have h := C2_swap_iff_rowcounts_equal tcMain 25 [rowEmailA, rowEmailB]
    [rowNoPii] vaultTokAll
  have h2 := h.2.1 2 (by decide) (by decide)
  exact ⟨h2.1, h2.2, by decide⟩

/-- **C3** counterexample.  The claim: the vault client retries transient
failures (timeouts, 5xx, rate limiting) with exponential backoff — base delay
2 s, multiplier 2, up to 3 attempts — before surfacing the failure.  The
handler has no retry around `requests.post`: against a vault answering every
request with HTTP 500 the run surfaces the failure after exactly one HTTP
attempt, not three. -/
theorem C3_no_retry_counterexample :
    (run tcMain 25 [rowEmailA, rowEmailB] [] vault500).outcome
      = .handlerException 500
    ∧ (run tcMain 25 [rowEmailA, rowEmailB] [] vault500).trace.length = 1 := by
  exact ⟨by decide, by decide⟩

/-- **C4** counterexample.  The claim: a response record matching none of the
four accepted token shapes makes the vault client signal
`Failure("unrecognized token shape")`.  The handler instead leaves `token =
None` and the `if token:` guard silently skips the record: against a vault
returning only unrecognized records the run completes successfully with zero
tokens, and the rows keep their plaintext values. -/
theorem C4_unrecognized_shape_counterexample :
    extractToken tcMain weirdRec = none
    ∧ (run tcMain 25 [rowEmailA, rowEmailB] [] vaultWeird).outcome
      = .complete 0 1 2
    ∧ (run tcMain 25 [rowEmailA, rowEmailB] [] vaultWeird).swapPerformed = true
    ∧ ((run tcMain 25 [rowEmailA, rowEmailB] [] vaultWeird).sourceAfter.map
        (fun r => r "email")) = [some "a@x.com", some "b@x.com"] := by
  exact ⟨by decide, by decide, by decide, by decide⟩

/-! ### Staging-accumulator algebra (helper lemmas) -/

theorem lookupA_rowSet (m : List (String × String)) (k v q : String) :
    lookupA (rowSet m k v) q = if q = k then some v else lookupA m q := by
  induction m with
  | nil =>
    by_cases hq : q = k
    · simp [rowSet, lookupA, hq]
    · simp [rowSet, lookupA, hq, beq_iff_eq, Ne.symm hq]
  | cons p m ih =>
    by_cases hpk : p.1 = k
    · by_cases hq : q = k
      · simp [rowSet, hpk, lookupA, hq]
      · simp [rowSet, hpk, lookupA, hq, beq_iff_eq, Ne.symm hq]
    · by_cases hpq : p.1 = q
      · have hq : ¬q = k := fun h => hpk (hpq.trans h)
        simp [rowSet, hpk, lookupA, hpq, hq, beq_iff_eq]
      · simp [rowSet, hpk, lookupA, hpq, beq_iff_eq, ih]

theorem rowSet_idem (m : List (String × String)) (k v : String) :
    rowSet (rowSet m k v) k v = rowSet m k v := by
  induction m with
  | nil => simp [rowSet]
  | cons p m ih =>
    by_cases hpk : p.1 = k
    · simp [rowSet, hpk]
    · simp [rowSet, hpk, beq_iff_eq, ih]

theorem stgLookup_upsert (stg : Staging) (col : String) (rn0 : Nat)
    (tok : String) (rn : Nat) (q : String) :
    stgLookup (upsert stg col rn0 tok) rn q
      = if rn = rn0 ∧ q = col then some tok else stgLookup stg rn q := by
  induction stg with
  | nil =>
    simp only [upsert, stgLookup, lookupA]
    split_ifs <;> simp_all [beq_iff_eq]
  | cons row stg ih =>
    by_cases hr : row.1 = rn0
    · have hr' : (row.1 == rn0) = true := by simp [beq_iff_eq, hr]
      show stgLookup (if row.1 == rn0 then (rn0, rowSet row.2 col tok) :: stg
          else row :: upsert stg col rn0 tok) rn q = _
      rw [if_pos hr']
      show (if rn0 == rn then lookupA (rowSet row.2 col tok) q
          else stgLookup stg rn q) = _
      rw [lookupA_rowSet]
      by_cases h1 : rn = rn0
      · by_cases h2 : q = col <;> simp_all [beq_iff_eq, stgLookup, hr]
      · have h1' : ¬rn0 = rn := fun h => h1 h.symm
        by_cases h2 : q = col <;> simp_all [beq_iff_eq, stgLookup, hr]
    · have hr' : (row.1 == rn0) = false := by simp [beq_iff_eq, hr]
      show stgLookup (if row.1 == rn0 then (rn0, rowSet row.2 col tok) :: stg
          else row :: upsert stg col rn0 tok) rn q = _
      rw [hr']
      show (if row.1 == rn then lookupA row.2 q
          else stgLookup (upsert stg col rn0 tok) rn q) = _
      rw [ih]
      by_cases hrn : row.1 = rn
      · have h1 : ¬rn = rn0 := fun h => hr (hrn.trans h)
        simp_all [beq_iff_eq, stgLookup]
      · by_cases h1 : rn = rn0 <;> by_cases h2 : q = col <;>
          simp_all [beq_iff_eq, stgLookup]

theorem upsert_idem (stg : Staging) (col : String) (rn : Nat) (t : String) :
    upsert (upsert stg col rn t) col rn t = upsert stg col rn t := by
  induction stg with
  | nil => simp [upsert, rowSet]
  | cons row stg ih =>
    by_cases hr : row.1 = rn
    · simp [upsert, hr, rowSet_idem]
    · simp [upsert, hr, beq_iff_eq, ih]

theorem keys_upsert (stg : Staging) (col : String) (rn : Nat) (t : String) :
    (upsert stg col rn t).map Prod.fst =
      if rn ∈ stg.map Prod.fst then stg.map Prod.fst
      else stg.map Prod.fst ++ [rn] := by
  induction stg with
  | nil => simp [upsert]
  | cons row stg ih =>
    by_cases hr : row.1 = rn
    · simp [upsert, hr]
    · have hr' : ¬rn = row.1 := fun h => hr h.symm
      by_cases hm : rn ∈ stg.map Prod.fst
      · simp [upsert, hr, beq_iff_eq, ih, hm, hr']
      · simp [upsert, hr, beq_iff_eq, ih, hm, hr']

theorem upsert_nodup (stg : Staging) (col : String) (rn : Nat) (t : String)
    (h : (stg.map Prod.fst).Nodup) :
    ((upsert stg col rn t).map Prod.fst).Nodup := by
  rw [keys_upsert]
  by_cases hm : rn ∈ stg.map Prod.fst
  · simpa [hm] using h
  · rw [if_neg hm, List.nodup_append]
    refine ⟨h, List.nodup_singleton rn, ?_⟩
    intro a ha hb
    rw [List.mem_singleton] at hb
    exact hm (hb ▸ ha)

theorem mergeColumn_nodup (stg : Staging) (col : String)
    (toks : List (Nat × String)) (h : (stg.map Prod.fst).Nodup) :
    ((mergeColumn stg col toks).map Prod.fst).Nodup := by
  induction toks generalizing stg with
  | nil => exact h
  | cons p toks ih =>
    exact ih (upsert stg col p.1 p.2) (upsert_nodup stg col p.1 p.2 h)

/-- **C6** (confirmed).  The staging merge is an idempotent upsert keyed by
`rn`: any sequence of merges keeps at most one row per `rn` (the key list
stays duplicate-free), merging the same token record twice equals merging it
once, and merging a token for an `rn`/column pair that already holds a value
overwrites it (last-write-wins). -/
theorem C6_staging_upsert_semantics :
    (∀ (stg : Staging) (col : String) (toks : List (Nat × String)),
      (stg.map Prod.fst).Nodup →
      ((mergeColumn stg col toks).map Prod.fst).Nodup)
    ∧ (∀ (stg : Staging) (col : String) (rn : Nat) (t : String),
      upsert (upsert stg col rn t) col rn t = upsert stg col rn t)
    ∧ (∀ (stg : Staging) (col : String) (rn : Nat) (t : String),
      stgLookup (upsert stg col rn t) rn col = some t) := by
  refine ⟨mergeColumn_nodup, upsert_idem, ?_⟩
  intro stg col rn t
  rw [stgLookup_upsert]
  simp

/-- Witness for `C6_staging_upsert_semantics`: concrete merges into a small
staging table. -/
theorem C6_staging_upsert_semantics_witness :
    ((mergeColumn [] "email" [(1, "t1"), (2, "t2")]).map Prod.fst).Nodup
    ∧ upsert (upsert [] "email" 1 "t1") "email" 1 "t1"
      = upsert [] "email" 1 "t1"
    ∧ stgLookup (upsert [(1, [("email", "told")])] "email" 1 "tnew") 1 "email"
      = some "tnew" := by
  exact ⟨C6_staging_upsert_semantics.1 [] "email" [(1, "t1"), (2, "t2")]
      (by decide),
    C6_staging_upsert_semantics.2.1 [] "email" 1 "t1",
    C6_staging_upsert_semantics.2.2 [(1, [("email", "told")])] "email" 1 "tnew"⟩

/-! ### Tokenization-loop state lemmas -/

/-- The batch loop never touches the staging table or the token counter (it
only records HTTP traffic and bumps `total_api_calls`): success case. -/
theorem processBatches_ok_state (vault : List String → VaultOutcome)
    (tc col : String) (bl : List (List (Nat × String))) (st : TokState)
    (acc : List (Nat × String)) (st' : TokState) (toks : List (Nat × String))
    (h : processBatches vault tc col st acc bl = .ok (st', toks)) :
    st'.staging = st.staging ∧ st'.tokensProcessed = st.tokensProcessed := by
  induction bl generalizing st acc with
  | nil =>
    simp only [processBatches, Except.ok.injEq, Prod.mk.injEq] at h
    rw [← h.1]
    exact ⟨rfl, rfl⟩
  | cons b bl ih =>
    simp only [processBatches] at h
    cases hv : vault (b.map Prod.snd) with
    | httpError s =>
      simp only [hv] at h
      exact Except.noConfusion h
    | badBody raw =>
      simp only [hv] at h
      exact Except.noConfusion h
    | ok recs =>
      simp only [hv] at h
      exact ih ⟨st.staging, st.apiCalls + 1, st.tokensProcessed,
        st.trace ++ [b.map Prod.snd]⟩ (acc ++ batchTokens tc b recs) h

/-- The batch loop never touches the staging table or the token counter:
failure case. -/
theorem processBatches_error_state (vault : List String → VaultOutcome)
    (tc col : String) (bl : List (List (Nat × String))) (st : TokState)
    (acc : List (Nat × String)) (f : TokFail) (st' : TokState)
    (h : processBatches vault tc col st acc bl = .error (f, st')) :
    st'.staging = st.staging ∧ st'.tokensProcessed = st.tokensProcessed := by
  induction bl generalizing st acc with
  | nil =>
    simp only [processBatches] at h
    exact Except.noConfusion h
  | cons b bl ih =>
    simp only [processBatches] at h
    cases hv : vault (b.map Prod.snd) with
    | httpError s =>
      simp only [hv, Except.error.injEq, Prod.mk.injEq] at h
      rw [← h.2]
      exact ⟨rfl, rfl⟩
    | badBody raw =>
      simp only [hv, Except.error.injEq, Prod.mk.injEq] at h
      rw [← h.2]
      exact ⟨rfl, rfl⟩
    | ok recs =>
      simp only [hv] at h
      exact ih ⟨st.staging, st.apiCalls + 1, st.tokensProcessed,
        st.trace ++ [b.map Prod.snd]⟩ (acc ++ batchTokens tc b recs) h

/-- A column pass that fails leaves the staging table exactly as it was when
the column started (its own partial tokens are never merged). -/
theorem processColumn_error_staging (vault : List String → VaultOutcome)
    (tc : String) (bs : Nat) (snap : List (Nat × Row)) (st : TokState)
    (col : String) (f : TokFail) (st' : TokState)
    (h : processColumn vault tc bs snap st col = .error (f, st')) :
    st'.staging = st.staging := by
  unfold processColumn at h
  by_cases he : (colValues snap col).isEmpty
  · rw [if_pos he] at h; cases h
  · rw [if_neg he] at h
    cases hb : processBatches vault tc col st []
        (chunks bs (colValues snap col)) with
    | error e =>
      rw [hb] at h
      cases h
      exact (processBatches_error_state _ _ _ _ _ _ _ _ hb).1
    | ok p =>
      rw [hb] at h
      by_cases ht : p.2.isEmpty
      · simp only [ht, if_pos] at h; cases h
      · simp only [ht, Bool.false_eq_true, if_neg, if_false] at h; cases h

/-- A failure in one column ends the whole column loop with exactly that
failure and state. -/
theorem processColumns_append_error (vault : List String → VaultOutcome)
    (tc : String) (bs : Nat) (snap : List (Nat × Row)) (st : TokState)
    (cs₁ : List String) (col : String) (cs₂ : List String) (st₁ : TokState)
    (f : TokFail) (st₂ : TokState)
    (h1 : processColumns vault tc bs snap st cs₁ = .ok st₁)
    (h2 : processColumn vault tc bs snap st₁ col = .error (f, st₂)) :
    processColumns vault tc bs snap st (cs₁ ++ col :: cs₂)
      = .error (f, st₂) := by
  induction cs₁ generalizing st with
  | nil =>
    simp only [processColumns, Except.ok.injEq] at h1
    subst h1
    simp only [List.nil_append, processColumns, h2]
  | cons c cs ih =>
    simp only [processColumns] at h1
    cases hc : processColumn vault tc bs snap st c with
    | error e =>
      rw [hc] at h1
      exact Except.noConfusion h1
    | ok st0 =>
      rw [hc] at h1
      simp only [List.cons_append, processColumns, hc]
      exact ih st0 h1

/-- **C7** (confirmed).  If any batch of one column fails, the whole column
pass fails and the run ends with that failure; tokens already merged for
previously completed columns stay in the staging accumulator (no rollback,
and the failing column merges nothing); and whenever no swap happened — in
particular on any failure before the swap — the source table is untouched. -/
theorem C7_failure_isolation :
    (∀ (vault : List String → VaultOutcome) (tc : String) (bs : Nat)
      (snap : List (Nat × Row)) (st : TokState) (col : String) (f : TokFail)
      (st' : TokState),
      processColumn vault tc bs snap st col = .error (f, st') →
      st'.staging = st.staging)
    ∧ (∀ (vault : List String → VaultOutcome) (tc : String) (bs : Nat)
      (snap : List (Nat × Row)) (st : TokState) (cs₁ : List String)
      (col : String) (cs₂ : List String) (st₁ : TokState) (f : TokFail)
      (st₂ : TokState),
      processColumns vault tc bs snap st cs₁ = .ok st₁ →
      processColumn vault tc bs snap st₁ col = .error (f, st₂) →
      processColumns vault tc bs snap st (cs₁ ++ col :: cs₂)
        = .error (f, st₂)
      ∧ st₂.staging = st₁.staging)
    ∧ (∀ (tc : String) (bs : Nat) (src extra : List Row)
      (vault : List String → VaultOutcome),
      (run tc bs src extra vault).swapPerformed = false →
      (run tc bs src extra vault).sourceAfter = src ++ extra) := by
  refine ⟨processColumn_error_staging, ?_, ?_⟩
  · intro vault tc bs snap st cs₁ col cs₂ st₁ f st₂ h1 h2
    exact ⟨processColumns_append_error vault tc bs snap st cs₁ col cs₂ st₁
        f st₂ h1 h2,
      processColumn_error_staging vault tc bs snap st₁ col f st₂ h2⟩
  · intro tc bs src extra vault
    simp only [run]
    split
    · simp
    · split
      · simp
      · simp
      · split <;> simp

/-- Witness for `C7_failure_isolation`: the `first_name` pass succeeds and
merges its token, the `email` batch gets HTTP 503; the run fails with the
`first_name` token still staged and the source table untouched. -/
theorem C7_failure_isolation_witness :
    processColumns vaultSel tcMain 25 (snapshotOf [rowFailEmail])
      ⟨[], 0, 0, []⟩ piiColumns
      = .error (.httpError 503,
          ⟨[(1, [("first_name", "tok_Bob")])], 1, 1, [["Bob"], ["bad@x"]]⟩)
    ∧ (run tcMain 25 [rowFailEmail] [] vaultSel).sourceAfter
      = [rowFailEmail] ++ [] := by
  constructor
  · exact (C7_failure_isolation.2.1 vaultSel tcMain 25
      (snapshotOf [rowFailEmail]) ⟨[], 0, 0, []⟩ ["first_name", "last_name"]
      "email" ["phone_number", "address", "date_of_birth"]
      ⟨[(1, [("first_name", "tok_Bob")])], 1, 1, [["Bob"]]⟩ (.httpError 503)
      ⟨[(1, [("first_name", "tok_Bob")])], 1, 1, [["Bob"], ["bad@x"]]⟩
      rfl rfl).1
  · exact C7_failure_isolation.2.2 tcMain 25 [rowFailEmail] [] vaultSel
      (by decide)

/-! ### Unrecognized-shape handling (helper lemmas) -/

/-- If no record of a response matches an accepted token shape, the batch
produces no token records at all. -/

theorem batchTokens_nil_of_none (tc : String) (batch : List (Nat × String))
    (recs : List VaultRecord) (h : ∀ rec ∈ recs, extractToken tc rec = none) :
    batchTokens tc batch recs = [] := by
  unfold batchTokens
  rw [List.filterMap_eq_nil_iff]
  rintro ⟨r, q⟩ hp
  rw [h r (List.of_mem_zip hp).1]

theorem processBatches_toks_none (vault : List String → VaultOutcome)
    (tc col : String) (bl : List (List (Nat × String))) (st : TokState)
    (acc : List (Nat × String)) (st' : TokState) (toks : List (Nat × String))
    (hv : ∀ p recs, vault p = .ok recs → ∀ rec ∈ recs,
      extractToken tc rec = none)
    (h : processBatches vault tc col st acc bl = .ok (st', toks)) :
    toks = acc := by
  induction bl generalizing st acc with
  | nil =>
    simp only [processBatches, Except.ok.injEq, Prod.mk.injEq] at h
    exact h.2.symm
  | cons b bl ih =>
    simp only [processBatches] at h
    cases hveq : vault (b.map Prod.snd) with
    | httpError s =>
      simp only [hveq] at h
      exact Except.noConfusion h
    | badBody raw =>
      simp only [hveq] at h
      exact Except.noConfusion h
    | ok recs =>
      simp only [hveq] at h
      rw [batchTokens_nil_of_none tc b recs (hv _ _ hveq),
        List.append_nil] at h
      exact ih _ _ h

theorem processColumn_staging_none (vault : List String → VaultOutcome)
    (tc : String) (bs : Nat) (snap : List (Nat × Row)) (st : TokState)
    (col : String) (st' : TokState)
    (hv : ∀ p recs, vault p = .ok recs → ∀ rec ∈ recs,
      extractToken tc rec = none)
    (h : processColumn vault tc bs snap st col = .ok st') :
    st'.staging = st.staging := by
  unfold processColumn at h
  by_cases he : (colValues snap col).isEmpty
  · rw [if_pos he] at h
    cases h
    rfl
  · rw [if_neg he] at h
    cases hb : processBatches vault tc col st []
        (chunks bs (colValues snap col)) with
    | error e =>
      rw [hb] at h
      exact Except.noConfusion h
    | ok p =>
      rw [hb] at h
      have ht : p.2 = [] := processBatches_toks_none vault tc col _ st [] p.1
        p.2 hv (by rw [hb])
      simp only [ht, List.isEmpty_nil, if_pos] at h
      cases h
      exact (processBatches_ok_state vault tc col _ st [] p.1 p.2
        (by rw [hb])).1

theorem processColumns_staging_none (vault : List String → VaultOutcome)
    (tc : String) (bs : Nat) (snap : List (Nat × Row)) (st : TokState)
    (cs : List String) (st' : TokState)
    (hv : ∀ p recs, vault p = .ok recs → ∀ rec ∈ recs,
      extractToken tc rec = none)
    (h : processColumns vault tc bs snap st cs = .ok st') :
    st'.staging = st.staging := by
  induction cs generalizing st with
  | nil =>
    simp only [processColumns, Except.ok.injEq] at h
    subst h
    rfl
  | cons c cs ih =>
    simp only [processColumns] at h
    cases hc : processColumn vault tc bs snap st c with
    | error e =>
      rw [hc] at h
      exact Except.noConfusion h
    | ok st0 =>
      rw [hc] at h
      exact (ih st0 h).trans (processColumn_staging_none vault tc bs snap st
        c st0 hv hc)

theorem processColumns_error_staging_hv (vault : List String → VaultOutcome)
    (tc : String) (bs : Nat) (snap : List (Nat × Row)) (st : TokState)
    (cs : List String) (f : TokFail) (st' : TokState)
    (hv : ∀ p recs, vault p = .ok recs → ∀ rec ∈ recs,
      extractToken tc rec = none)
    (h : processColumns vault tc bs snap st cs = .error (f, st')) :
    st'.staging = st.staging := by
  induction cs generalizing st with
  | nil =>
    simp only [processColumns] at h
    exact Except.noConfusion h
  | cons c cs ih =>
    simp only [processColumns] at h
    cases hc : processColumn vault tc bs snap st c with
    | error e =>
      rw [hc] at h
      simp only [Except.error.injEq] at h
      have he : e = (f, st') := h
      rw [he] at hc
      exact processColumn_error_staging vault tc bs snap st c f st' hc
    | ok st0 =>
      rw [hc] at h
      exact (ih st0 h).trans (processColumn_staging_none vault tc bs snap st
        c st0 hv hc)

/-- **C4** (corrected).  A record matching none of the four accepted shapes
is silently skipped rather than failing: such batches produce no token
records, and a run against a vault that only returns unrecognized records
leaves the staging accumulator without a single row (when it was created at
all) — no `Failure("unrecognized token shape")` exists in the code. -/
theorem C4_unrecognized_shape_skipped :
    (∀ (tc : String) (batch : List (Nat × String)) (recs : List VaultRecord),
      (∀ rec ∈ recs, extractToken tc rec = none) →
      batchTokens tc batch recs = [])
    ∧ (∀ (tc : String) (bs : Nat) (src extra : List Row)
        (vault : List String → VaultOutcome),
      (∀ p recs, vault p = .ok recs → ∀ rec ∈ recs,
        extractToken tc rec = none) →
      (run tc bs src extra vault).staging = none
      ∨ (run tc bs src extra vault).staging = some []) := by
  refine ⟨batchTokens_nil_of_none, ?_⟩
  intro tc bs src extra vault hv
  simp only [run]
  split
  · exact Or.inl rfl
  · split
    · rename_i heq
      exact Or.inr (congrArg some
        (processColumns_error_staging_hv _ _ _ _ _ _ _ _ hv heq))
    · rename_i heq
      exact Or.inr (congrArg some
        (processColumns_error_staging_hv _ _ _ _ _ _ _ _ hv heq))
    · rename_i st heq
      have := processColumns_staging_none _ _ _ _ _ _ _ hv heq
      split
      · exact Or.inr (congrArg some this)
      · exact Or.inr (congrArg some this)

/-- Witness for `C4_unrecognized_shape_skipped`: a concrete unrecognized
record and a concrete all-unrecognized run. -/
theorem C4_unrecognized_shape_skipped_witness :
    batchTokens tcMain [(1, "a@x.com")] [weirdRec] = []
    ∧ ((run tcMain 25 [rowEmailA, rowEmailB] [] vaultWeird).staging = none
      ∨ (run tcMain 25 [rowEmailA, rowEmailB] [] vaultWeird).staging
        = some []) := by
  constructor
  · exact C4_unrecognized_shape_skipped.1 tcMain [(1, "a@x.com")] [weirdRec]
      (by decide)
  · refine C4_unrecognized_shape_skipped.2 tcMain 25 [rowEmailA, rowEmailB] []
      vaultWeird ?_
    intro p recs h rec hrec
    simp only [vaultWeird, VaultOutcome.ok.injEq] at h
    subst h
    obtain ⟨a, -, rfl⟩ := List.mem_map.mp hrec
    rfl

/-! ### HTTP-trace lemmas -/

theorem allOk_extend (vault : List String → VaultOutcome)
    (tr : List (List String)) (p : List String)
    (ha : allOk vault tr) (recs : List VaultRecord)
    (hp : vault p = .ok recs) : allOk vault (tr ++ [p]) := by
  intro q hq
  rcases List.mem_append.mp hq with hq | hq
  · exact ha q hq
  · rw [List.mem_singleton] at hq
    exact ⟨recs, hq ▸ hp⟩

theorem processBatches_trace_ok (vault : List String → VaultOutcome)
    (tc col : String) (bl : List (List (Nat × String))) (st : TokState)
    (acc : List (Nat × String)) (st' : TokState) (toks : List (Nat × String))
    (ha : allOk vault st.trace)
    (h : processBatches vault tc col st acc bl = .ok (st', toks)) :
    allOk vault st'.trace := by
  induction bl generalizing st acc with
  | nil =>
    simp only [processBatches, Except.ok.injEq, Prod.mk.injEq] at h
    rw [← h.1]
    exact ha
  | cons b bl ih =>
    simp only [processBatches] at h
    cases hv : vault (b.map Prod.snd) with
    | httpError s =>
      simp only [hv] at h
      exact Except.noConfusion h
    | badBody raw =>
      simp only [hv] at h
      exact Except.noConfusion h
    | ok recs =>
      simp only [hv] at h
      exact ih ⟨st.staging, st.apiCalls + 1, st.tokensProcessed,
          st.trace ++ [b.map Prod.snd]⟩ (acc ++ batchTokens tc b recs)
        (allOk_extend vault st.trace (b.map Prod.snd) ha recs hv) h

theorem processBatches_trace_error (vault : List String → VaultOutcome)
    (tc col : String) (bl : List (List (Nat × String))) (st : TokState)
    (acc : List (Nat × String)) (f : TokFail) (st' : TokState)
    (ha : allOk vault st.trace)
    (h : processBatches vault tc col st acc bl = .error (f, st')) :
    ∃ tr p, st'.trace = tr ++ [p] ∧ allOk vault tr
      ∧ failMatches vault f p := by
  induction bl generalizing st acc with
  | nil =>
    simp only [processBatches] at h
    exact Except.noConfusion h
  | cons b bl ih =>
    simp only [processBatches] at h
    cases hv : vault (b.map Prod.snd) with
    | httpError s =>
      simp only [hv, Except.error.injEq, Prod.mk.injEq] at h
      refine ⟨st.trace, b.map Prod.snd, ?_, ha, ?_⟩
      · rw [← h.2]
      · rw [← h.1]
        exact hv
    | badBody raw =>
      simp only [hv, Except.error.injEq, Prod.mk.injEq] at h
      refine ⟨st.trace, b.map Prod.snd, ?_, ha, ?_⟩
      · rw [← h.2]
      · rw [← h.1]
        exact hv
    | ok recs =>
      simp only [hv] at h
      exact ih ⟨st.staging, st.apiCalls + 1, st.tokensProcessed,
          st.trace ++ [b.map Prod.snd]⟩ (acc ++ batchTokens tc b recs)
        (allOk_extend vault st.trace (b.map Prod.snd) ha recs hv) h

theorem processColumn_trace_ok (vault : List String → VaultOutcome)
    (tc : String) (bs : Nat) (snap : List (Nat × Row)) (st : TokState)
    (col : String) (st' : TokState) (ha : allOk vault st.trace)
    (h : processColumn vault tc bs snap st col = .ok st') :
    allOk vault st'.trace := by
  unfold processColumn at h
  by_cases he : (colValues snap col).isEmpty
  · rw [if_pos he] at h
    cases h
    exact ha
  · rw [if_neg he] at h
    cases hb : processBatches vault tc col st []
        (chunks bs (colValues snap col)) with
    | error e =>
      rw [hb] at h
      exact Except.noConfusion h
    | ok p =>
      rw [hb] at h
      have htr := processBatches_trace_ok vault tc col _ st [] p.1 p.2 ha
        (by rw [hb])
      by_cases ht : p.2.isEmpty
      · simp only [ht, if_pos] at h
        cases h
        exact htr
      · simp only [ht, Bool.false_eq_true, if_neg, if_false] at h
        cases h
        exact htr

theorem processColumn_trace_error (vault : List String → VaultOutcome)
    (tc : String) (bs : Nat) (snap : List (Nat × Row)) (st : TokState)
    (col : String) (f : TokFail) (st' : TokState) (ha : allOk vault st.trace)
    (h : processColumn vault tc bs snap st col = .error (f, st')) :
    ∃ tr p, st'.trace = tr ++ [p] ∧ allOk vault tr
      ∧ failMatches vault f p := by
  unfold processColumn at h
  by_cases he : (colValues snap col).isEmpty
  · rw [if_pos he] at h
    exact Except.noConfusion h
  · rw [if_neg he] at h
    cases hb : processBatches vault tc col st []
        (chunks bs (colValues snap col)) with
    | error e =>
      rw [hb] at h
      cases h
      exact processBatches_trace_error vault tc col _ st [] f st' ha
        (by rw [hb])
    | ok p =>
      rw [hb] at h
      by_cases ht : p.2.isEmpty
      · simp only [ht, if_pos] at h
        exact Except.noConfusion h
      · simp only [ht, Bool.false_eq_true, if_neg, if_false] at h
        exact Except.noConfusion h

theorem processColumns_trace_ok (vault : List String → VaultOutcome)
    (tc : String) (bs : Nat) (snap : List (Nat × Row)) (st : TokState)
    (cs : List String) (st' : TokState) (ha : allOk vault st.trace)
    (h : processColumns vault tc bs snap st cs = .ok st') :
    allOk vault st'.trace := by
  induction cs generalizing st with
  | nil =>
    simp only [processColumns, Except.ok.injEq] at h
    subst h
    exact ha
  | cons c cs ih =>
    simp only [processColumns] at h
    cases hc : processColumn vault tc bs snap st c with
    | error e =>
      rw [hc] at h
      exact Except.noConfusion h
    | ok st0 =>
      rw [hc] at h
      exact ih st0 (processColumn_trace_ok vault tc bs snap st c st0 ha hc) h

theorem processColumns_trace_error (vault : List String → VaultOutcome)
    (tc : String) (bs : Nat) (snap : List (Nat × Row)) (st : TokState)
    (cs : List String) (f : TokFail) (st' : TokState)
    (ha : allOk vault st.trace)
    (h : processColumns vault tc bs snap st cs = .error (f, st')) :
    ∃ tr p, st'.trace = tr ++ [p] ∧ allOk vault tr
      ∧ failMatches vault f p := by
  induction cs generalizing st with
  | nil =>
    simp only [processColumns] at h
    exact Except.noConfusion h
  | cons c cs ih =>
    simp only [processColumns] at h
    cases hc : processColumn vault tc bs snap st c with
    | error e =>
      rw [hc] at h
      simp only [Except.error.injEq] at h
      rw [h] at hc
      exact processColumn_trace_error vault tc bs snap st c f st' ha hc
    | ok st0 =>
      rw [hc] at h
      exact ih st0 (processColumn_trace_ok vault tc bs snap st c st0 ha hc) h

/-- **C3** (amended; the spec's retry/backoff does not exist in the code).
Each batch's vault call happens exactly once: in any run every HTTP request
except possibly the last received an `ok` response — a failing request is
never retried and immediately ends the run — and a run surfacing an HTTP
error (resp. a missing-`records` body) failed on its final request. -/
theorem C3_single_attempt_per_batch (tc : String) (bs : Nat)
    (src extra : List Row) (vault : List String → VaultOutcome) :
    (∀ q ∈ (run tc bs src extra vault).trace.dropLast,
      ∃ recs, vault q = .ok recs)
    ∧ (∀ s, (run tc bs src extra vault).outcome = .handlerException s →
      ∃ p, (run tc bs src extra vault).trace.getLast? = some p
        ∧ vault p = .httpError s)
    ∧ (∀ col raw, (run tc bs src extra vault).outcome = .apiError col raw →
      ∃ p, (run tc bs src extra vault).trace.getLast? = some p
        ∧ vault p = .badBody raw) := by
  have h0 : allOk vault (TokState.mk [] 0 0 []).trace := by
    intro p hp
    cases hp
  unfold run
  by_cases hsnap : (snapshotOf src).length = 0
  · simp only [hsnap, if_pos]
    refine ⟨?_, ?_, ?_⟩
    · intro q hq
      simp at hq
    · intro s hs
      simp at hs
    · intro col raw h
      simp at h
  · simp only [hsnap, if_neg, if_false]
    cases heq : processColumns vault tc bs (snapshotOf src)
        (TokState.mk [] 0 0 []) piiColumns with
    | error e =>
      obtain ⟨f, st⟩ := e
      obtain ⟨tr, p, htr, ha, hm⟩ := processColumns_trace_error vault tc bs
        _ _ piiColumns f st h0 heq
      cases f with
      | httpError s =>
        simp only [heq]
        refine ⟨?_, ?_, ?_⟩
        · intro q hq
          simp only [htr, List.dropLast_concat] at hq
          exact ha q hq
        · intro s' hs'
          simp only [RunOutcome.handlerException.injEq] at hs'
          subst hs'
          exact ⟨p, by rw [htr]; exact List.getLast?_concat tr, hm⟩
        · intro col raw hcr
          simp at hcr
      | apiError col raw =>
        simp only [heq]
        refine ⟨?_, ?_, ?_⟩
        · intro q hq
          simp only [htr, List.dropLast_concat] at hq
          exact ha q hq
        · intro s hs
          simp at hs
        · intro col' raw' hcr
          simp only [RunOutcome.apiError.injEq] at hcr
          obtain ⟨-, hraw⟩ := hcr
          subst hraw
          exact ⟨p, by rw [htr]; exact List.getLast?_concat tr, hm⟩
    | ok st =>
      have ha := processColumns_trace_ok vault tc bs _ _ piiColumns st h0 heq
      simp only [heq]
      by_cases hval : (src ++ extra).length
          = (rebuildTable st.staging (snapshotOf src)).length
      · simp only [hval, if_pos]
        refine ⟨?_, ?_, ?_⟩
        · intro q hq
          exact ha q (List.dropLast_subset st.trace hq)
        · intro s hs
          simp at hs
        · intro col raw h
          simp at h
      · simp only [hval, if_neg, if_false]
        refine ⟨?_, ?_, ?_⟩
        · intro q hq
          exact ha q (List.dropLast_subset st.trace hq)
        · intro s hs
          simp at hs
        · intro col raw h
          simp at h

/-- Witness for `C3_single_attempt_per_batch`: in the selective-failure run
the one non-final request succeeded and the failing 503 request is the last
one issued. -/
theorem C3_single_attempt_per_batch_witness :
    (∃ recs, vaultSel ["Bob"] = .ok recs)
    ∧ (∃ p, (run tcMain 25 [rowFailEmail] [] vaultSel).trace.getLast?
        = some p ∧ vaultSel p = .httpError 503) := by
  have h := C3_single_attempt_per_batch tcMain 25 [rowFailEmail] [] vaultSel
  constructor
  · exact h.1 ["Bob"] (by decide)
  · exact h.2.1 503 (by decide)

/-! ### Null/blank handling (helper lemmas) -/

/-- Values read for a column come from snapshot rows holding them non-null
and non-blank. -/

theorem colValues_mem (snap : List (Nat × Row)) (col : String) (rn : Nat)
    (v : String) (h : (rn, v) ∈ colValues snap col) :
    ∃ r, (rn, r) ∈ snap ∧ r col = some v ∧ sqlTrim v ≠ "" := by
  unfold colValues at h
  rw [List.mem_filterMap] at h
  obtain ⟨⟨rn', r⟩, hmem, hf⟩ := h
  simp only at hf
  cases hv : r col with
  | none => rw [hv] at hf; cases hf
  | some w =>
    rw [hv] at hf
    by_cases hw : sqlTrim w = ""
    · simp only [hw, if_pos] at hf
      cases hf
    · simp only [hw, Bool.false_eq_true, if_neg, if_false,
        Option.some.injEq, Prod.mk.injEq] at hf
      obtain ⟨h1, h2⟩ := hf
      subst h1
      subst h2
      exact ⟨r, hmem, hv, hw⟩

theorem chunksGo_mem {α : Type} (n : Nat) (xs : List α) (acc : List α)
    (k : Nat) (b : List α) (hb : b ∈ chunksGo n xs acc k) (x : α)
    (hx : x ∈ b) : x ∈ xs ∨ x ∈ acc := by
  induction xs generalizing acc k with
  | nil =>
    simp only [chunksGo, List.mem_singleton] at hb
    subst hb
    exact Or.inr (List.mem_reverse.mp hx)
  | cons y ys ih =>
    cases k with
    | zero =>
      simp only [chunksGo, List.mem_cons] at hb
      rcases hb with hb | hb
      · subst hb
        exact Or.inr (List.mem_reverse.mp hx)
      · rcases ih [y] (n - 1) hb with h | h
        · exact Or.inl (List.mem_cons_of_mem y h)
        · rw [List.mem_singleton] at h
          exact Or.inl (h ▸ List.mem_cons_self y ys)
    | succ k =>
      rcases ih (y :: acc) k hb with h | h
      · exact Or.inl (List.mem_cons_of_mem y h)
      · rcases List.mem_cons.mp h with h | h
        · exact Or.inl (h ▸ List.mem_cons_self y ys)
        · exact Or.inr h

theorem chunks_mem {α : Type} (n : Nat) (l : List α) (b : List α)
    (hb : b ∈ chunks n l) (x : α) (hx : x ∈ b) : x ∈ l := by
  cases l with
  | nil => simp [chunks] at hb
  | cons y ys =>
    have hb' : b ∈ (if n = 0 then [y :: ys] else chunksGo n ys [y] (n - 1)) :=
      hb
    by_cases hn : n = 0
    · rw [if_pos hn, List.mem_singleton] at hb'
      exact hb' ▸ hx
    · rw [if_neg hn] at hb'
      rcases chunksGo_mem n ys [y] (n - 1) b hb' x hx with h | h
      · exact List.mem_cons_of_mem y h
      · rw [List.mem_singleton] at h
        exact h ▸ List.mem_cons_self y ys

theorem batchTokens_mem_batch (tc : String) (batch : List (Nat × String))
    (recs : List VaultRecord) (q : Nat × String)
    (h : q ∈ batchTokens tc batch recs) : ∃ v, (q.1, v) ∈ batch := by
  unfold batchTokens at h
  rw [List.mem_filterMap] at h
  obtain ⟨⟨r, p⟩, hmem, hf⟩ := h
  simp only at hf
  cases he : extractToken tc r with
  | none => rw [he] at hf; cases hf
  | some t =>
    rw [he] at hf
    by_cases ht : t = ""
    · simp only [ht, if_pos] at hf
      cases hf
    · simp only [ht, Bool.false_eq_true, if_neg, if_false,
        Option.some.injEq] at hf
      rw [← hf]
      exact ⟨p.2, (List.of_mem_zip hmem).2⟩

theorem processBatches_toks_mem (vault : List String → VaultOutcome)
    (tc col : String) (bl : List (List (Nat × String))) (st : TokState)
    (acc : List (Nat × String)) (st' : TokState) (toks : List (Nat × String))
    (h : processBatches vault tc col st acc bl = .ok (st', toks))
    (q : Nat × String) (hq : q ∈ toks) :
    q ∈ acc ∨ ∃ b ∈ bl, ∃ v, (q.1, v) ∈ b := by
  induction bl generalizing st acc with
  | nil =>
    simp only [processBatches, Except.ok.injEq, Prod.mk.injEq] at h
    rw [← h.2] at hq
    exact Or.inl hq
  | cons b bl ih =>
    simp only [processBatches] at h
    cases hv : vault (b.map Prod.snd) with
    | httpError s =>
      simp only [hv] at h
      exact Except.noConfusion h
    | badBody raw =>
      simp only [hv] at h
      exact Except.noConfusion h
    | ok recs =>
      simp only [hv] at h
      rcases ih ⟨st.staging, st.apiCalls + 1, st.tokensProcessed,
          st.trace ++ [b.map Prod.snd]⟩ (acc ++ batchTokens tc b recs) h with
        hacc | ⟨b', hb', hv'⟩
      · rcases List.mem_append.mp hacc with h' | h'
        · exact Or.inl h'
        · exact Or.inr ⟨b, List.mem_cons_self b bl,
            batchTokens_mem_batch tc b recs q h'⟩
      · exact Or.inr ⟨b', List.mem_cons_of_mem b hb', hv'⟩

theorem mergeColumn_lookup_dom (stg : Staging) (col : String)
    (toks : List (Nat × String)) (rn : Nat) (q : String) (t : String)
    (h : stgLookup (mergeColumn stg col toks) rn q = some t) :
    stgLookup stg rn q = some t ∨ (q = col ∧ ∃ tv, (rn, tv) ∈ toks) := by
  induction toks generalizing stg with
  | nil => exact Or.inl h
  | cons p toks ih =>
    rcases ih (upsert stg col p.1 p.2) h with h' | ⟨hq, tv, htv⟩
    · rw [stgLookup_upsert] at h'
      by_cases hc : rn = p.1 ∧ q = col
      · exact Or.inr ⟨hc.2, p.2, hc.1 ▸ List.mem_cons_self p toks⟩
      · rw [if_neg hc] at h'
        exact Or.inl h'
    · exact Or.inr ⟨hq, tv, List.mem_cons_of_mem p htv⟩

theorem processColumn_staging_dom (vault : List String → VaultOutcome)
    (tc : String) (bs : Nat) (snap : List (Nat × Row)) (st : TokState)
    (col : String) (st' : TokState)
    (h : processColumn vault tc bs snap st col = .ok st')
    (rn : Nat) (q : String) (t : String)
    (hl : stgLookup st'.staging rn q = some t) :
    stgLookup st.staging rn q = some t
    ∨ (q = col ∧ ∃ r v, (rn, r) ∈ snap ∧ r col = some v ∧ sqlTrim v ≠ "") := by
  unfold processColumn at h
  by_cases he : (colValues snap col).isEmpty
  · rw [if_pos he] at h
    cases h
    exact Or.inl hl
  · rw [if_neg he] at h
    cases hb : processBatches vault tc col st []
        (chunks bs (colValues snap col)) with
    | error e =>
      rw [hb] at h
      exact Except.noConfusion h
    | ok p =>
      rw [hb] at h
      have hst := (processBatches_ok_state vault tc col _ st [] p.1 p.2
        (by rw [hb])).1
      by_cases ht : p.2.isEmpty
      · simp only [ht, if_pos] at h
        cases h
        exact Or.inl (hst ▸ hl)
      · simp only [ht, Bool.false_eq_true, if_neg, if_false] at h
        cases h
        simp only at hl
        rcases mergeColumn_lookup_dom p.1.staging col p.2 rn q t hl with
          h' | ⟨hq, tv, htv⟩
        · exact Or.inl (hst ▸ h')
        · refine Or.inr ⟨hq, ?_⟩
          rcases processBatches_toks_mem vault tc col _ st [] p.1 p.2
            (by rw [hb]) (rn, tv) htv with hacc | ⟨b, hbmem, v, hv⟩
          · cases hacc
          · have hcv : (rn, v) ∈ colValues snap col :=
              chunks_mem bs (colValues snap col) b hbmem (rn, v) hv
            obtain ⟨r, hr, hrc, hnb⟩ := colValues_mem snap col rn v hcv
            exact ⟨r, v, hr, hrc, hnb⟩

theorem processColumns_staging_dom (vault : List String → VaultOutcome)
    (tc : String) (bs : Nat) (snap : List (Nat × Row)) (st : TokState)
    (cs : List String) (st' : TokState)
    (h : processColumns vault tc bs snap st cs = .ok st')
    (rn : Nat) (q : String) (t : String)
    (hl : stgLookup st'.staging rn q = some t) :
    stgLookup st.staging rn q = some t
    ∨ (q ∈ cs ∧ ∃ r v, (rn, r) ∈ snap ∧ r q = some v ∧ sqlTrim v ≠ "") := by
  induction cs generalizing st with
  | nil =>
    simp only [processColumns, Except.ok.injEq] at h
    subst h
    exact Or.inl hl
  | cons c cs ih =>
    simp only [processColumns] at h
    cases hc : processColumn vault tc bs snap st c with
    | error e =>
      rw [hc] at h
      exact Except.noConfusion h
    | ok st0 =>
      rw [hc] at h
      rcases ih st0 h with h' | ⟨hq, hex⟩
      · rcases processColumn_staging_dom vault tc bs snap st c st0 hc rn q t
          h' with h'' | ⟨hq, hex⟩
        · exact Or.inl h''
        · exact Or.inr ⟨hq ▸ List.mem_cons_self c cs, hq ▸ hex⟩
      · exact Or.inr ⟨List.mem_cons_of_mem c hq, hex⟩

theorem snapshotOf_length (src : List Row) :
    (snapshotOf src).length = (src.filter hasAnyPii).length := by
  simp [snapshotOf]

theorem snapshotOf_get (src : List Row) (i : Nat)
    (hi : i < (snapshotOf src).length)
    (hi' : i < (src.filter hasAnyPii).length) :
    (snapshotOf src).get ⟨i, hi⟩
      = (i + 1, (src.filter hasAnyPii).get ⟨i, hi'⟩) := by
  simp [snapshotOf, List.getElem_enum]

theorem snapshotOf_mem (src : List Row) (rn : Nat) (r : Row)
    (h : (rn, r) ∈ snapshotOf src) :
    ∃ j, ∃ (hj : j < (src.filter hasAnyPii).length),
      rn = j + 1 ∧ r = (src.filter hasAnyPii).get ⟨j, hj⟩ := by
  unfold snapshotOf at h
  rw [List.mem_map] at h
  obtain ⟨⟨j, x⟩, hmem, hf⟩ := h
  rw [List.mem_iff_getElem] at hmem
  obtain ⟨j', hj', hg⟩ := hmem
  rw [List.getElem_enum] at hg
  simp only [Prod.mk.injEq] at hg hf
  obtain ⟨h1, h2⟩ := hg
  subst h1
  have hjlen : j' < (src.filter hasAnyPii).length := by
    rw [List.enum_length] at hj'
    exact hj'
  refine ⟨j', hjlen, hf.1.symm, ?_⟩
  simp only [List.get_eq_getElem]
  rw [← hf.2, ← h2]

theorem rebuildTable_length (stg : Staging) (snap : List (Nat × Row)) :
    (rebuildTable stg snap).length = snap.length := by
  simp [rebuildTable]

theorem rebuildTable_get (stg : Staging) (snap : List (Nat × Row)) (i : Nat)
    (hr : i < (rebuildTable stg snap).length) (hi : i < snap.length) :
    (rebuildTable stg snap).get ⟨i, hr⟩
      = rebuildRow stg (snap.get ⟨i, hi⟩).1 (snap.get ⟨i, hi⟩).2 := by
  simp [rebuildTable]

theorem rebuildRow_none (stg : Staging) (rn : Nat) (r : Row) (col : String)
    (hcol : col ∈ piiColumns) (hstg : stgLookup stg rn col = none) :
    rebuildRow stg rn r col = r col := by
  have hmem : col ∈ allColumns :=
    List.mem_cons_of_mem _ (List.mem_append_left _ hcol)
  have hall : allColumns.contains col = true := List.elem_iff.mpr hmem
  have hpii : piiColumns.contains col = true := List.elem_iff.mpr hcol
  simp [rebuildRow, hall, hpii, hstg, hmem]

theorem nbTrace_extend (tr : List (List String)) (b : List (Nat × String))
    (ha : nbTrace tr) (hb : ∀ q ∈ b, sqlTrim q.2 ≠ "") :
    nbTrace (tr ++ [b.map Prod.snd]) := by
  intro p hp v hv
  rcases List.mem_append.mp hp with hp | hp
  · exact ha p hp v hv
  · rw [List.mem_singleton] at hp
    subst hp
    obtain ⟨q, hq, rfl⟩ := List.mem_map.mp hv
    exact hb q hq

theorem processBatches_nb_ok (vault : List String → VaultOutcome)
    (tc col : String) (bl : List (List (Nat × String))) (st : TokState)
    (acc : List (Nat × String)) (st' : TokState) (toks : List (Nat × String))
    (hbl : ∀ b ∈ bl, ∀ q ∈ b, sqlTrim q.2 ≠ "") (ha : nbTrace st.trace)
    (h : processBatches vault tc col st acc bl = .ok (st', toks)) :
    nbTrace st'.trace := by
  induction bl generalizing st acc with
  | nil =>
    simp only [processBatches, Except.ok.injEq, Prod.mk.injEq] at h
    rw [← h.1]
    exact ha
  | cons b bl ih =>
    simp only [processBatches] at h
    cases hv : vault (b.map Prod.snd) with
    | httpError s =>
      simp only [hv] at h
      exact Except.noConfusion h
    | badBody raw =>
      simp only [hv] at h
      exact Except.noConfusion h
    | ok recs =>
      simp only [hv] at h
      exact ih ⟨st.staging, st.apiCalls + 1, st.tokensProcessed,
          st.trace ++ [b.map Prod.snd]⟩ (acc ++ batchTokens tc b recs)
        (fun b' hb' => hbl b' (List.mem_cons_of_mem b hb'))
        (nbTrace_extend st.trace b ha (hbl b (List.mem_cons_self b bl))) h

theorem processBatches_nb_error (vault : List String → VaultOutcome)
    (tc col : String) (bl : List (List (Nat × String))) (st : TokState)
    (acc : List (Nat × String)) (f : TokFail) (st' : TokState)
    (hbl : ∀ b ∈ bl, ∀ q ∈ b, sqlTrim q.2 ≠ "") (ha : nbTrace st.trace)
    (h : processBatches vault tc col st acc bl = .error (f, st')) :
    nbTrace st'.trace := by
  induction bl generalizing st acc with
  | nil =>
    simp only [processBatches] at h
    exact Except.noConfusion h
  | cons b bl ih =>
    simp only [processBatches] at h
    cases hv : vault (b.map Prod.snd) with
    | httpError s =>
      simp only [hv, Except.error.injEq, Prod.mk.injEq] at h
      rw [← h.2]
      exact nbTrace_extend st.trace b ha (hbl b (List.mem_cons_self b bl))
    | badBody raw =>
      simp only [hv, Except.error.injEq, Prod.mk.injEq] at h
      rw [← h.2]
      exact nbTrace_extend st.trace b ha (hbl b (List.mem_cons_self b bl))
    | ok recs =>
      simp only [hv] at h
      exact ih ⟨st.staging, st.apiCalls + 1, st.tokensProcessed,
          st.trace ++ [b.map Prod.snd]⟩ (acc ++ batchTokens tc b recs)
        (fun b' hb' => hbl b' (List.mem_cons_of_mem b hb'))
        (nbTrace_extend st.trace b ha (hbl b (List.mem_cons_self b bl))) h

theorem colValues_chunks_nb (snap : List (Nat × Row)) (col : String)
    (bs : Nat) : ∀ b ∈ chunks bs (colValues snap col), ∀ q ∈ b,
      sqlTrim q.2 ≠ "" := by
  rintro b hb ⟨rn, v⟩ hq
  have hcv : (rn, v) ∈ colValues snap col :=
    chunks_mem bs (colValues snap col) b hb (rn, v) hq
  obtain ⟨r, -, -, hnb⟩ := colValues_mem snap col rn v hcv
  exact hnb

theorem processColumn_nb (vault : List String → VaultOutcome)
    (tc : String) (bs : Nat) (snap : List (Nat × Row)) (st : TokState)
    (col : String) (out : Except (TokFail × TokState) TokState)
    (ha : nbTrace st.trace)
    (h : processColumn vault tc bs snap st col = out) :
    (∀ st', out = .ok st' → nbTrace st'.trace)
    ∧ (∀ f st', out = .error (f, st') → nbTrace st'.trace) := by
  unfold processColumn at h
  by_cases he : (colValues snap col).isEmpty
  · rw [if_pos he] at h
    subst h
    constructor
    · intro st' h'
      simp only [Except.ok.injEq] at h'
      subst h'
      exact ha
    · intro f st' h'
      exact Except.noConfusion h'
  · rw [if_neg he] at h
    cases hb : processBatches vault tc col st []
        (chunks bs (colValues snap col)) with
    | error e =>
      rw [hb] at h
      subst h
      constructor
      · intro st' h'
        exact Except.noConfusion h'
      · intro f st' h'
        simp only [Except.error.injEq] at h'
        have := processBatches_nb_error vault tc col _ st [] e.1 e.2
          (colValues_chunks_nb snap col bs) ha (by rw [hb])
        rw [h'] at this
        exact this
    | ok p =>
      rw [hb] at h
      have hnb := processBatches_nb_ok vault tc col _ st [] p.1 p.2
        (colValues_chunks_nb snap col bs) ha (by rw [hb])
      by_cases ht : p.2.isEmpty
      · simp only [ht, if_pos] at h
        subst h
        constructor
        · intro st' h'
          simp only [Except.ok.injEq] at h'
          subst h'
          exact hnb
        · intro f st' h'
          exact Except.noConfusion h'
      · simp only [ht, Bool.false_eq_true, if_neg, if_false] at h
        subst h
        constructor
        · intro st' h'
          simp only [Except.ok.injEq] at h'
          subst h'
          exact hnb
        · intro f st' h'
          exact Except.noConfusion h'

theorem processColumns_nb (vault : List String → VaultOutcome)
    (tc : String) (bs : Nat) (snap : List (Nat × Row)) (st : TokState)
    (cs : List String) (out : Except (TokFail × TokState) TokState)
    (ha : nbTrace st.trace)
    (h : processColumns vault tc bs snap st cs = out) :
    (∀ st', out = .ok st' → nbTrace st'.trace)
    ∧ (∀ f st', out = .error (f, st') → nbTrace st'.trace) := by
  induction cs generalizing st with
  | nil =>
    simp only [processColumns] at h
    subst h
    constructor
    · intro st' h'
      simp only [Except.ok.injEq] at h'
      subst h'
      exact ha
    · intro f st' h'
      exact Except.noConfusion h'
  | cons c cs ih =>
    simp only [processColumns] at h
    cases hc : processColumn vault tc bs snap st c with
    | error e =>
      rw [hc] at h
      subst h
      constructor
      · intro st' h'
        exact Except.noConfusion h'
      · intro f st' h'
        simp only [Except.error.injEq] at h'
        have := ((processColumn_nb vault tc bs snap st c _ ha hc).2 e.1 e.2
          rfl)
        rw [h'] at this
        exact this
    | ok st0 =>
      rw [hc] at h
      exact ih st0 ((processColumn_nb vault tc bs snap st c _ ha hc).1 st0
        rfl) h

/-- **C9** (confirmed).  Null or blank sensitive values are never tokenized:
every value of every HTTP payload sent to the vault is non-blank (nulls are
filtered out before batching), and any snapshot row whose value for a
sensitive column is null or blank keeps exactly its original value in that
column of the replacement table. -/
theorem C9_nulls_never_tokenized (tc : String) (bs : Nat)
    (src extra : List Row) (vault : List String → VaultOutcome) :
    (∀ p ∈ (run tc bs src extra vault).trace, ∀ v ∈ p, sqlTrim v ≠ "")
    ∧ (∀ i (col : String), col ∈ piiColumns →
        ∀ (hi : i < (snapshotOf src).length),
        isNullOrBlank (((snapshotOf src).get ⟨i, hi⟩).2 col) = true →
        ∀ repl, (run tc bs src extra vault).replacement = some repl →
        ∃ (hr : i < repl.length),
          (repl.get ⟨i, hr⟩) col = ((snapshotOf src).get ⟨i, hi⟩).2 col) := by
  have h0 : nbTrace (TokState.mk [] 0 0 []).trace := by
    intro p hp
    cases hp
  constructor
  · unfold run
    by_cases hsnap : (snapshotOf src).length = 0
    · simp only [hsnap, if_pos]
      intro p hp
      simp at hp
    · simp only [hsnap, if_neg, if_false]
      cases heq : processColumns vault tc bs (snapshotOf src)
          (TokState.mk [] 0 0 []) piiColumns with
      | error e =>
        obtain ⟨f, st⟩ := e
        have hnb := (processColumns_nb vault tc bs (snapshotOf src) _
          piiColumns _ h0 heq).2 f st rfl
        cases f with
        | httpError s =>
          simp only [heq]
          exact hnb
        | apiError c raw =>
          simp only [heq]
          exact hnb
      | ok st =>
        have hnb := (processColumns_nb vault tc bs (snapshotOf src) _
          piiColumns _ h0 heq).1 st rfl
        simp only [heq]
        by_cases hval : (src ++ extra).length
            = (rebuildTable st.staging (snapshotOf src)).length
        · simp only [hval, if_pos]
          exact hnb
        · simp only [hval, if_neg, if_false]
          exact hnb
  · intro i col hcol hi hnb repl hrepl
    simp only [run] at hrepl
    by_cases hsnap : (snapshotOf src).length = 0
    · simp only [hsnap, if_pos] at hrepl
      exact Option.noConfusion hrepl
    · simp only [hsnap, if_neg, if_false] at hrepl
      cases heq : processColumns vault tc bs (snapshotOf src)
          (TokState.mk [] 0 0 []) piiColumns with
      | error e =>
        obtain ⟨f, st⟩ := e
        rw [heq] at hrepl
        cases f with
        | httpError s => exact Option.noConfusion hrepl
        | apiError c raw => exact Option.noConfusion hrepl
      | ok st =>
        rw [heq] at hrepl
        have hrepl' : repl = rebuildTable st.staging (snapshotOf src) := by
          by_cases hval : (src ++ extra).length
              = (rebuildTable st.staging (snapshotOf src)).length
          · simp only [hval, if_pos, Option.some.injEq] at hrepl
            exact hrepl.symm
          · simp only [hval, if_neg, if_false, Option.some.injEq] at hrepl
            exact hrepl.symm
        subst hrepl'
        have hr : i < (rebuildTable st.staging (snapshotOf src)).length := by
          rw [rebuildTable_length]
          exact hi
        refine ⟨hr, ?_⟩
        rw [rebuildTable_get st.staging (snapshotOf src) i hr hi]
        apply rebuildRow_none _ _ _ _ hcol
        cases hx : stgLookup st.staging ((snapshotOf src).get ⟨i, hi⟩).1
            col with
        | none => rfl
        | some t =>
          exfalso
          rcases processColumns_staging_dom vault tc bs (snapshotOf src) _
            piiColumns st heq _ col t hx with hz | ⟨-, r', v, hmem', hrc, hnbv⟩
          · exact Option.noConfusion hz
          · have hisnap : i < (src.filter hasAnyPii).length := by
              rw [← snapshotOf_length]
              exact hi
            have hgeti := snapshotOf_get src i hi hisnap
            obtain ⟨j, hj, hrnj, hrj⟩ := snapshotOf_mem src _ r' hmem'
            have hrn1 : ((snapshotOf src).get ⟨i, hi⟩).1 = i + 1 := by
              rw [hgeti]
            have hji : i = j := by
              rw [hrn1] at hrnj
              omega
            subst hji
            have hr'r : r' = ((snapshotOf src).get ⟨i, hi⟩).2 := by
              rw [hrj, hgeti]
            rw [hr'r] at hrc
            rw [hrc] at hnb
            simp only [isNullOrBlank, beq_iff_eq] at hnb
            exact hnbv hnb

/-- Witness for `C9_nulls_never_tokenized`: in a run over `srcNullMix` no
payload value is blank and the row with a null `email` keeps `email = NULL`
in the replacement table. -/
theorem C9_nulls_never_tokenized_witness :
    (∀ p ∈ (run tcMain 25 srcNullMix [] vaultTokAll).trace,
      ∀ v ∈ p, sqlTrim v ≠ "")
    ∧ ∃ (hr : 1 < (rebuildTable stgNullMix (snapshotOf srcNullMix)).length),
        ((rebuildTable stgNullMix (snapshotOf srcNullMix)).get ⟨1, hr⟩) "email"
          = ((snapshotOf srcNullMix).get ⟨1, by decide⟩).2 "email" := by
  have h := C9_nulls_never_tokenized tcMain 25 srcNullMix [] vaultTokAll
  exact ⟨h.1, h.2 1 "email" (by decide) (by decide) (by decide)
    (rebuildTable stgNullMix (snapshotOf srcNullMix)) rfl⟩

/-- **C8** (confirmed).  Token extraction checks the four accepted shapes in
exactly this priority order: `tokens[column]`, then `fields[column]`, then a
top-level `token` key, then a bare column-named key; an earlier shape, when
present, wins over any later one. -/
theorem C8_shape_priority (tc : String) (rec : VaultRecord) :
    (∀ t, rec.tokens.bind (fun m => lookupA m tc) = some t →
      extractToken tc rec = some t)
    ∧ (rec.tokens.bind (fun m => lookupA m tc) = none →
      ∀ t, rec.fields.bind (fun m => lookupA m tc) = some t →
        extractToken tc rec = some t)
    ∧ (rec.tokens.bind (fun m => lookupA m tc) = none →
      rec.fields.bind (fun m => lookupA m tc) = none →
      ∀ t, lookupA rec.top "token" = some t →
        extractToken tc rec = some t)
    ∧ (rec.tokens.bind (fun m => lookupA m tc) = none →
      rec.fields.bind (fun m => lookupA m tc) = none →
      lookupA rec.top "token" = none →
      extractToken tc rec = lookupA rec.top tc) := by
  refine ⟨?_, ?_, ?_, ?_⟩
  · intro t h
    unfold extractToken
    rw [h]
  · intro h0 t h
    unfold extractToken
    rw [h0, h]
  · intro h0 h1 t h
    unfold extractToken
    rw [h0, h1, h]
  · intro h0 h1 h2
    unfold extractToken
    rw [h0, h1, h2]

/-- Witness for `C8_shape_priority`: on records exhibiting several shapes at
once the extracted token follows the priority chain. -/
theorem C8_shape_priority_witness :
    extractToken tcMain recAllShapes = some "t_tokens"
    ∧ extractToken tcMain recNoTok = some "t_fields"
    ∧ extractToken tcMain recTopTok = some "t_top"
    ∧ extractToken tcMain recBare = some "t_bare" := by
  refine ⟨(C8_shape_priority tcMain recAllShapes).1 _ (by decide),
    (C8_shape_priority tcMain recNoTok).2.1 (by decide) _ (by decide),
    (C8_shape_priority tcMain recTopTok).2.2.1 (by decide) (by decide) _
      (by decide), ?_⟩
  have h := (C8_shape_priority tcMain recBare).2.2.2 (by decide) (by decide)
    (by decide)
  exact h.trans (by decide)

/-- **C5** (confirmed).  Tokens of a batch response are bound to row ids
purely by position: `(rn, t)` is recorded exactly when some index `i` below
both list lengths has `rn` as the `i`-th requested row id and `t` as the
(truthy) token extracted from the `i`-th response record — never by matching
values. -/
theorem C5_positional_binding (tc : String) (batch : List (Nat × String))
    (recs : List VaultRecord) (rn : Nat) (t : String) :
    (rn, t) ∈ batchTokens tc batch recs ↔
      ∃ i, ∃ (h1 : i < recs.length), ∃ (h2 : i < batch.length),
        (batch[i]).1 = rn ∧ extractToken tc (recs[i]) = some t ∧ t ≠ "" := by
  unfold batchTokens
  rw [List.mem_filterMap]
  constructor
  · rintro ⟨rp, hmem, hf⟩
    rw [List.mem_iff_getElem] at hmem
    obtain ⟨i, hlen, hi⟩ := hmem
    rw [List.length_zip] at hlen
    have h1 : i < recs.length := lt_of_lt_of_le hlen (Nat.min_le_left _ _)
    have h2 : i < batch.length := lt_of_lt_of_le hlen (Nat.min_le_right _ _)
    have hz : rp = (recs[i], batch[i]) := by
      rw [← hi, List.getElem_zip]
    subst hz
    refine ⟨i, h1, h2, ?_⟩
    simp only at hf
    cases hext : extractToken tc recs[i] with
    | none => rw [hext] at hf; simp at hf
    | some u =>
      rw [hext] at hf
      by_cases hu : u = ""
      · simp [hu] at hf
      · simp only [if_neg hu, Option.some.injEq, Prod.mk.injEq] at hf
        obtain ⟨hrn, ht⟩ := hf
        subst ht
        exact ⟨hrn, rfl, hu⟩
  · rintro ⟨i, h1, h2, hrn, hext, hne⟩
    refine ⟨(recs[i], batch[i]), ?_, ?_⟩
    · rw [List.mem_iff_getElem]
      have hlen : i < (recs.zip batch).length := by
        rw [List.length_zip]; omega
      exact ⟨i, hlen, by rw [List.getElem_zip]⟩
    · simp only [hext, if_neg hne, hrn]

/-- Witness for `C5_positional_binding`: in a two-record batch the second
response record's token is bound to the second requested row id. -/
theorem C5_positional_binding_witness :
    (5, "tok_vb") ∈ batchTokens tcMain [(4, "va"), (5, "vb")]
      [mkTokRec "va", mkTokRec "vb"] := by
  exact (C5_positional_binding tcMain [(4, "va"), (5, "vb")]
    [mkTokRec "va", mkTokRec "vb"] 5 "tok_vb").mpr
    ⟨1, by decide, by decide, by decide, by decide, by decide⟩

end CtasSwap
